import Mathlib

/-!
Shallow embedding of `searchlib/src/vespa/searchlib/attribute/singleboolattribute.cpp`
(`SingleBoolAttribute`, a single-bit-per-document attribute column) together with the
collaborator interfaces it consumes.  Pure collaborators that are not part of the file
(the packed bit-array primitive, the arithmetic helper of the integer attribute base
class, the query-term record and the iterator factory) are modelled from the spec and
carry a doc comment saying so.  All definitions are executable.
-/

set_option linter.unusedVariables false

namespace SingleBool

/-- Modelled from the spec: the packed bit-array collaborator (the `BitVector` /
`GrowableBitVector` primitive, external to the file).  One boolean per slot,
`size` slots; slots are addressed by document id. -/
structure BitVector where
  bits : Nat → Bool
  size : Nat

def BitVector.getBit (bv : BitVector) (i : Nat) : Bool := bv.bits i

/-- Modelled from the spec: `setBit` primitive of the bit array. -/
def BitVector.setBit (bv : BitVector) (i : Nat) : BitVector :=
  { bv with bits := fun d => if d = i then true else bv.bits d }

/-- Modelled from the spec: `clearBit` primitive of the bit array. -/
def BitVector.clearBit (bv : BitVector) (i : Nat) : BitVector :=
  { bv with bits := fun d => if d = i then false else bv.bits d }

/-- Modelled from the spec: `extend(capacity)` grows the bit array (never shrinks);
newly exposed slots hold `false`. -/
def BitVector.extend (bv : BitVector) (n : Nat) : BitVector :=
  { bits := fun d => if d < bv.size then bv.bits d else false,
    size := max bv.size n }

/-- Modelled from the spec: `shrink(newSize)` truncates the bit array. -/
def BitVector.shrink (bv : BitVector) (n : Nat) : BitVector :=
  { bits := fun d => if d < n then bv.bits d else false, size := n }

/-- Modelled from the spec: `clear()` clears every bit, keeping the size. -/
def BitVector.clear (bv : BitVector) : BitVector :=
  { bits := fun _ => false, size := bv.size }

/-- Modelled from the spec: `countSetBits` / `countTrueBits` primitive. -/
def BitVector.countTrueBits (bv : BitVector) : Nat :=
  ((List.range bv.size).filter bv.bits).length

/-- Modelled from the spec: `sizeBytes` of a packed bit array of `size` bits is
`ceil(size / 8)` bytes. -/
def BitVector.sizeBytes (bv : BitVector) : Nat := (bv.size + 7) / 8

/-- The document-id space state of the attribute (`AttributeVector` base-class fields
visible through `getNumDocs`, `getCommittedDocIdLimit`, `updateUncommittedDocIdLimit`)
together with the column's bit storage `_bv`. -/
structure Column where
  bv : BitVector
  numDocs : Nat
  committedDocIdLimit : Nat
  uncommittedDocIdLimit : Nat

/-- A fresh, empty column: no documents, no bits. -/
def freshColumn : Column :=
  { bv := { bits := fun _ => false, size := 0 },
    numDocs := 0, committedDocIdLimit := 0, uncommittedDocIdLimit := 0 }

/-- `SingleBoolAttribute::getFast(doc)`: the document's value as an 8-bit integer,
`1` when the bit is set and `0` otherwise (declared in the class header; modelled
from the spec's direct bit accessor `get`). -/
def getFast (c : Column) (doc : Nat) : Int :=
  if c.bv.getBit doc then 1 else 0

/-- `SingleBoolAttribute::addDoc`: extend the bit storage to `numDocs + 1` slots,
increment `numDocs`, return the new id `numDocs - 1`, and raise
`uncommittedDocIdLimit` to cover it.  (The generation bookkeeping of the source has
no observable effect on the column state modelled here.) -/
def addDoc (c : Column) : Column × Nat :=
  let bv := c.bv.extend (c.numDocs + 1)
  let n := c.numDocs + 1
  let doc := n - 1
  ({ c with bv := bv
          , numDocs := n
          , uncommittedDocIdLimit := max c.uncommittedDocIdLimit (doc + 1) }, doc)

/-- The change kinds handled by `SingleBoolAttribute::onCommit` (`ChangeBase::UPDATE`,
the contiguous arithmetic range `ADD .. DIV`, and `CLEARDOC`). -/
inductive ChangeType
  | UPDATE
  | ADD
  | SUB
  | MUL
  | DIV
  | CLEARDOC
deriving DecidableEq, Repr

/-- A pending mutation from the external change queue: target document, kind, and
operand (`_doc`, `_type`, `_data`). -/
structure Change where
  ctype : ChangeType
  doc : Nat
  data : Int
deriving DecidableEq, Repr

/-- Truncation to 8-bit two's-complement, i.e. the value an `int8_t` holds. -/
def toInt8 (x : Int) : Int := (x + 128) % 256 - 128

/-- Modelled from the spec: `IntegerAttributeTemplate<int8_t>::applyArithmetic`
(base-class helper, external to the file): apply the change's arithmetic to the
current value with 8-bit truncating semantics.  A divide by zero leaves the value
unchanged. -/
def applyArithmetic (v : Int) (ch : Change) : Int :=
  match ch.ctype with
  | .ADD => toInt8 (v + ch.data)
  | .SUB => toInt8 (v - ch.data)
  | .MUL => toInt8 (v * ch.data)
  | .DIV => if ch.data = 0 then v else toInt8 (Int.tdiv v ch.data)
  | _ => v

/-- The body of the `onCommit` loop for one change: `UPDATE` writes the operand's
boolean coercion, `ADD .. DIV` recomputes from the current bit through
`applyArithmetic` and writes the result's boolean coercion, `CLEARDOC` clears. -/
def applyChange (c : Column) (ch : Change) : Column :=
  match ch.ctype with
  | .UPDATE =>
      if ch.data = 0 then { c with bv := c.bv.clearBit ch.doc }
      else { c with bv := c.bv.setBit ch.doc }
  | .ADD | .SUB | .MUL | .DIV =>
      let val := applyArithmetic (getFast c ch.doc) ch
      if val = 0 then { c with bv := c.bv.clearBit ch.doc }
      else { c with bv := c.bv.setBit ch.doc }
  | .CLEARDOC => { c with bv := c.bv.clearBit ch.doc }

/-- `SingleBoolAttribute::onCommit`: apply every pending change, in list order,
against the bit storage; afterwards the pending list is cleared (it is owned by the
caller) and the cached set-bit count is invalidated (the model recomputes the count
on demand, so invalidation has no observable effect). -/
def onCommit (c : Column) (changes : List Change) : Column :=
  changes.foldl applyChange c

/-- The claim's per-mutation semantics, written against an abstract document-to-value
map: exactly the target document changes, to the boolean coercion the claim
describes. -/
def mutateSpec (m : Nat → Bool) (ch : Change) : Nat → Bool :=
  fun d =>
    if d = ch.doc then
      match ch.ctype with
      | .UPDATE => decide (ch.data ≠ 0)
      | .ADD | .SUB | .MUL | .DIV =>
          decide (applyArithmetic (if m ch.doc then 1 else 0) ch ≠ 0)
      | .CLEARDOC => false
    else m d

/-- Modelled from the spec: the query-term record handed over by the external
query-term parser: raw term text and a validity flag (`QueryTermSimple::getTerm`,
`QueryTermSimple::isValid`). -/
structure QueryTermSimple where
  term : String
  isValid : Bool

/-- The C-locale `tolower` applied to a code point: ASCII upper-case letters map to
their lower-case forms, everything else is unchanged. -/
def asciiLower (c : Char) : Nat :=
  if 65 ≤ c.toNat ∧ c.toNat ≤ 90 then c.toNat + 32 else c.toNat

/-- `strcasecmp(a, b) == 0`: the two strings are equal after C-locale
lower-casing of every character. -/
def strCaseEq (a b : String) : Bool :=
  a.data.map asciiLower == b.data.map asciiLower

/-- The state of `BitVectorSearchContext` after construction: the attribute it is
bound to (`_attr`, whose bit vector is `_bv`), the inversion flag `_invert` and the
validity flag `_valid`. -/
structure SearchContext where
  attr : Column
  invert : Bool
  valid : Bool

/-- `BitVectorSearchContext::BitVectorSearchContext`: `_valid` starts as the term's
validity flag and `_invert` as `false`; `strcmp("1", t) == 0 ||
strcasecmp("true", t) == 0` keeps both, `strcmp("0", t) == 0 ||
strcasecmp("false", t) == 0` sets `_invert`, anything else forces
`_valid := false`. -/
def mkSearchContext (q : QueryTermSimple) (c : Column) : SearchContext :=
  if q.term == "1" || strCaseEq "true" q.term then
    { attr := c, invert := false, valid := q.isValid }
  else if q.term == "0" || strCaseEq "false" q.term then
    { attr := c, invert := true, valid := q.isValid }
  else
    { attr := c, invert := false, valid := false }

def SearchContext.bv (sc : SearchContext) : BitVector := sc.attr.bv

/-- The three-way predicate of the spec, read off the context's flags: invalid
contexts are `Invalid`, inverted ones `MatchClearedBits`, the rest `MatchSetBits`. -/
inductive Predicate
  | MatchSetBits
  | MatchClearedBits
  | Invalid
deriving DecidableEq, Repr

def SearchContext.predicate (sc : SearchContext) : Predicate :=
  if sc.valid then
    if sc.invert then .MatchClearedBits else .MatchSetBits
  else .Invalid

/-- `BitVectorSearchContext::approximateHits`: `0` when invalid, otherwise the
set-bit count, inverted against the column size when `_invert`. -/
def SearchContext.approximateHits (sc : SearchContext) : Nat :=
  if sc.valid then
    if sc.invert then sc.bv.size - sc.bv.countTrueBits else sc.bv.countTrueBits
  else 0

/-- The iterator returned by `createFilterIterator`: either `queryeval::EmptySearch`
or a `BitVectorIterator` over the bits, the committed doc-id limit and the inversion
flag. -/
inductive SIterator
  | empty
  | bitVector (bv : BitVector) (docIdLimit : Nat) (invert : Bool)

/-- `BitVectorSearchContext::createFilterIterator`: an invalid context yields the
empty search, otherwise the bit-vector iterator is built from the bits, the
attribute's committed doc-id limit and the inversion flag. -/
def createFilterIterator (sc : SearchContext) : SIterator :=
  if sc.valid then .bitVector sc.attr.bv sc.attr.committedDocIdLimit sc.invert
  else .empty

/-- Modelled from the spec: match semantics of the produced iterators (the external
scan engine): the empty search matches nothing; the bit-vector iterator matches the
documents below the doc-id limit whose bit, after optional inversion, is set. -/
def SIterator.matchesDoc : SIterator → Nat → Bool
  | .empty, _ => false
  | .bitVector bv lim inv, d => decide (d < lim) && (bv.getBit d != inv)

/-- The little-endian byte encoding of a `uint32_t`, as `memcpy` of the document
count produces on the (little-endian) target. -/
def u32leBytes (n : Nat) : List Nat :=
  [n % 256, n / 256 % 256, n / 65536 % 256, n / 16777216 % 256]

/-- One byte of the packed bit payload: bit `k` of byte `j` is document
`8 * j + k`'s value. -/
def packByte (bits : Nat → Bool) (j : Nat) : Nat :=
  (bits (8 * j)).toNat
  + 2 * ((bits (8 * j + 1)).toNat
  + 2 * ((bits (8 * j + 2)).toNat
  + 2 * ((bits (8 * j + 3)).toNat
  + 2 * ((bits (8 * j + 4)).toNat
  + 2 * ((bits (8 * j + 5)).toNat
  + 2 * ((bits (8 * j + 6)).toNat
  + 2 * (bits (8 * j + 7)).toNat))))))

/-- The raw bytes of the bit storage (`_bv.getStart()`, `_bv.sizeBytes()` of them). -/
def bvBytes (bv : BitVector) : List Nat :=
  (List.range bv.sizeBytes).map (packByte bv.bits)

/-- `SingleBoolAttribute::onSave`: write the committed doc-id limit as a `uint32_t`
followed by the raw bytes of the bit storage. -/
def onSave (c : Column) : List Nat :=
  u32leBytes c.committedDocIdLimit ++ bvBytes c.bv

/-- Decoding of the `uint32_t` header at the front of the stream
(`attrReader.getNextData()`). -/
def readU32 (bytes : List Nat) : Nat :=
  bytes.getD 0 0 + 256 * bytes.getD 1 0 + 65536 * bytes.getD 2 0
    + 16777216 * bytes.getD 3 0

/-- `SingleBoolAttribute::onLoad`: when the byte source has no data, report failure
and leave the column untouched.  Otherwise clear the bit storage, read the document
count, extend to it, `memcpy` the next `sizeBytes` bytes over the bit storage, and
set both `numDocs` and `committedDocIdLimit` to the read count. -/
def onLoad (c : Column) (input : Option (List Nat)) : Bool × Column :=
  match input with
  | none => (false, c)
  | some bytes =>
    let bv0 := c.bv.clear
    let docCount := readU32 bytes
    let bv1 := bv0.extend docCount
    let payload := (bytes.drop 4).take bv1.sizeBytes
    let bv2 : BitVector :=
      { size := bv1.size,
        bits := fun d => Nat.testBit (payload.getD (d / 8) 0) (d % 8) }
    (true, { c with bv := bv2
                  , numDocs := docCount
                  , committedDocIdLimit := docCount })

/-- `AttributeVector::clearDoc` for this attribute (base-class collaborator, external
to the file; modelled from the spec: clearing a document writes value `0`). -/
def clearDoc (c : Column) (doc : Nat) : Column :=
  { c with bv := c.bv.clearBit doc }

/-- The loop of `SingleBoolAttribute::clearDocs`, fueled by the trip count: each
document in turn is cleared when its current value is nonzero. -/
def clearDocsLoop : Nat → Column → Nat → Column
  | 0, c, _ => c
  | n + 1, c, lid =>
      clearDocsLoop n (if getFast c lid ≠ 0 then clearDoc c lid else c) (lid + 1)

/-- `SingleBoolAttribute::clearDocs(lidLow, lidLimit)`: asserts
`lidLow ≤ lidLimit ≤ numDocs` (fatal when violated, modelled as `none`), then clears
every document in `[lidLow, lidLimit)` whose value is nonzero. -/
def clearDocs (c : Column) (lidLow lidLimit : Nat) : Option Column :=
  if lidLow ≤ lidLimit ∧ lidLimit ≤ c.numDocs then
    some (clearDocsLoop (lidLimit - lidLow) c lidLow)
  else none

/-- `SingleBoolAttribute::onShrinkLidSpace`: asserts
`committedDocIdLimit < numDocs` (fatal when violated, modelled as `none`), then
shrinks the bit storage to the committed limit and sets `numDocs` to it. -/
def onShrinkLidSpace (c : Column) : Option Column :=
  if c.committedDocIdLimit < c.numDocs then
    some { c with bv := c.bv.shrink c.committedDocIdLimit
                , numDocs := c.committedDocIdLimit }
  else none

/-- Iterated `addDoc`, used to reach column states through the public write
interface. -/
def addN : Nat → Column → Column
  | 0, c => c
  | n + 1, c => addN n (addDoc c).1

/-- A concrete fully committed ten-document column whose documents 3 and 7 hold
`true` (the end-to-end scenario of the spec). -/
def sampleColumn : Column :=
  { bv := { bits := fun d => d == 3 || d == 7, size := 10 },
    numDocs := 10, committedDocIdLimit := 10, uncommittedDocIdLimit := 10 }

end SingleBool

namespace SingleBool

/-! ### Helper lemmas -/

theorem getBit_setBit (bv : BitVector) (i d : Nat) :
    (bv.setBit i).getBit d = if d = i then true else bv.getBit d := rfl

theorem getBit_clearBit (bv : BitVector) (i d : Nat) :
    (bv.clearBit i).getBit d = if d = i then false else bv.getBit d := rfl

theorem clearStep_getBit (c : Column) (lid d : Nat) :
    (if getFast c lid ≠ 0 then clearDoc c lid else c).bv.getBit d =
      if d = lid then false else c.bv.getBit d := by
  by_cases h : getFast c lid ≠ 0
  · simp [h, clearDoc, BitVector.clearBit, BitVector.getBit]
  · rw [if_neg h]
    have hb : c.bv.getBit lid = false := by
      revert h
      unfold getFast
      by_cases hg : c.bv.getBit lid <;> simp [hg]
    by_cases hd : d = lid
    · subst hd; simp [hb]
    · simp [hd]

theorem clearDocsLoop_getBit (n : Nat) : ∀ (c : Column) (lid d : Nat),
    (clearDocsLoop n c lid).bv.getBit d =
      if lid ≤ d ∧ d < lid + n then false else c.bv.getBit d := by
  induction n with
  | zero =>
    intro c lid d
    rw [clearDocsLoop, if_neg (by omega)]
  | succ n ih =>
    intro c lid d
    rw [clearDocsLoop, ih, clearStep_getBit]
    by_cases h1 : lid + 1 ≤ d ∧ d < lid + 1 + n
    · rw [if_pos h1, if_pos (by omega)]
    · rw [if_neg h1]
      by_cases h2 : d = lid
      · rw [if_pos h2, if_pos (by omega)]
      · rw [if_neg h2, if_neg (by omega)]

/-! ### Claim theorems -/

/-- C9: when the byte source reports no data, `onLoad` returns a not-ok (`false`)
result and the column — bits, document count, committed limit, everything — is
unchanged. -/
theorem onLoad_no_data_leaves_column_unchanged (c : Column) :
    onLoad c none = (false, c) := rfl

/-- C4: `approximateHits` returns `0` for the `Invalid` predicate, the set-bit count
for `MatchSetBits`, and the column size minus the set-bit count for
`MatchClearedBits`. -/
theorem approximateHits_by_predicate (sc : SearchContext) :
    sc.approximateHits =
      match sc.predicate with
      | .Invalid => 0
      | .MatchSetBits => sc.bv.countTrueBits
      | .MatchClearedBits => sc.bv.size - sc.bv.countTrueBits := by
  unfold SearchContext.approximateHits SearchContext.predicate
  cases hv : sc.valid <;> cases hi : sc.invert <;> simp

/-- C10: a query term whose external validity flag is `false` always produces the
`Invalid` predicate, whatever its text — `approximateHits` is `0` and the created
iterator matches no document. -/
theorem invalid_flag_forces_invalid_predicate (t : String) (c : Column) :
    (mkSearchContext ⟨t, false⟩ c).predicate = .Invalid
  ∧ (mkSearchContext ⟨t, false⟩ c).approximateHits = 0
  ∧ ∀ d, (createFilterIterator (mkSearchContext ⟨t, false⟩ c)).matchesDoc d = false := by
  unfold mkSearchContext
  split
  · simp [SearchContext.predicate, SearchContext.approximateHits,
      createFilterIterator, SIterator.matchesDoc]
  · split <;>
      simp [SearchContext.predicate, SearchContext.approximateHits,
        createFilterIterator, SIterator.matchesDoc]

/-- C5: `addDoc` returns the previous document count as the new id, increments the
count by one, and the new document's value starts out `false`. -/
theorem addDoc_returns_previous_count (c : Column) (hsz : c.bv.size = c.numDocs) :
    (addDoc c).2 = c.numDocs
  ∧ (addDoc c).1.numDocs = c.numDocs + 1
  ∧ (addDoc c).1.bv.getBit c.numDocs = false := by
  refine ⟨rfl, rfl, ?_⟩
  unfold addDoc BitVector.extend BitVector.getBit
  simp [hsz]

/-- Witness for C5 at the fresh column: the first `addDoc` returns id `0`. -/
theorem addDoc_returns_previous_count_witness :
    freshColumn.bv.size = freshColumn.numDocs
  ∧ (addDoc freshColumn).2 = freshColumn.numDocs :=
  ⟨rfl, (addDoc_returns_previous_count freshColumn rfl).1⟩

/-- C8: when `committedDocIdLimit < numDocs` the shrink truncates the bit storage to
the committed limit (preserving the surviving bits) and sets `numDocs` to it;
otherwise the operation is the fatal assertion failure, modelled as `none`. -/
theorem onShrinkLidSpace_requires_committed_lt_numDocs (c : Column) :
    (c.committedDocIdLimit < c.numDocs →
       ∃ c2, onShrinkLidSpace c = some c2
         ∧ c2.numDocs = c.committedDocIdLimit
         ∧ c2.committedDocIdLimit = c.committedDocIdLimit
         ∧ c2.bv.size = c.committedDocIdLimit
         ∧ ∀ d, d < c.committedDocIdLimit → c2.bv.getBit d = c.bv.getBit d)
  ∧ (¬ c.committedDocIdLimit < c.numDocs → onShrinkLidSpace c = none) := by
  constructor
  · intro h
    refine ⟨{ c with bv := c.bv.shrink c.committedDocIdLimit
                   , numDocs := c.committedDocIdLimit }, ?_, rfl, rfl, rfl, ?_⟩
    · rw [onShrinkLidSpace, if_pos h]
    · intro d hd
      simp [BitVector.shrink, BitVector.getBit, hd]
  · intro h
    rw [onShrinkLidSpace, if_neg h]

/-- Witness for C8: shrinking a two-document column with committed limit `1` keeps
document 0's value. -/
theorem onShrinkLidSpace_witness :
    (⟨⟨fun d => d == 0, 2⟩, 2, 1, 2⟩ : Column).committedDocIdLimit
      < (⟨⟨fun d => d == 0, 2⟩, 2, 1, 2⟩ : Column).numDocs
  ∧ ∃ c2, onShrinkLidSpace ⟨⟨fun d => d == 0, 2⟩, 2, 1, 2⟩ = some c2
      ∧ c2.numDocs = 1 ∧ c2.committedDocIdLimit = 1 ∧ c2.bv.size = 1
      ∧ ∀ d, d < 1 → c2.bv.getBit d = (⟨⟨fun d => d == 0, 2⟩, 2, 1, 2⟩ : Column).bv.getBit d :=
  ⟨by decide,
   (onShrinkLidSpace_requires_committed_lt_numDocs ⟨⟨fun d => d == 0, 2⟩, 2, 1, 2⟩).1
     (by decide)⟩


theorem applyChange_getBit (c : Column) (ch : Change) :
    (applyChange c ch).bv.getBit = mutateSpec c.bv.getBit ch := by
  funext d
  rcases ch with ⟨ty, doc, data⟩
  cases ty
  case UPDATE =>
    by_cases h0 : data = 0 <;> by_cases hd : d = doc <;>
      simp [applyChange, mutateSpec, h0, hd, getBit_clearBit, getBit_setBit]
  case CLEARDOC =>
    by_cases hd : d = doc <;>
      simp [applyChange, mutateSpec, hd, getBit_clearBit, getBit_setBit]
  case ADD =>
    by_cases h0 : applyArithmetic (if c.bv.getBit doc = true then (1 : Int) else 0)
        ⟨.ADD, doc, data⟩ = 0 <;>
      by_cases hd : d = doc <;>
      simp [applyChange, mutateSpec, getFast, h0, hd, getBit_clearBit, getBit_setBit]
  case SUB =>
    by_cases h0 : applyArithmetic (if c.bv.getBit doc = true then (1 : Int) else 0)
        ⟨.SUB, doc, data⟩ = 0 <;>
      by_cases hd : d = doc <;>
      simp [applyChange, mutateSpec, getFast, h0, hd, getBit_clearBit, getBit_setBit]
  case MUL =>
    by_cases h0 : applyArithmetic (if c.bv.getBit doc = true then (1 : Int) else 0)
        ⟨.MUL, doc, data⟩ = 0 <;>
      by_cases hd : d = doc <;>
      simp [applyChange, mutateSpec, getFast, h0, hd, getBit_clearBit, getBit_setBit]
  case DIV =>
    by_cases h0 : applyArithmetic (if c.bv.getBit doc = true then (1 : Int) else 0)
        ⟨.DIV, doc, data⟩ = 0 <;>
      by_cases hd : d = doc <;>
      simp [applyChange, mutateSpec, getFast, h0, hd, getBit_clearBit, getBit_setBit]

theorem applyChange_numDocs (c : Column) (ch : Change) :
    (applyChange c ch).numDocs = c.numDocs
  ∧ (applyChange c ch).committedDocIdLimit = c.committedDocIdLimit := by
  rcases ch with ⟨ty, doc, data⟩
  cases ty <;> simp [applyChange, apply_ite]

/-- C1: `onCommit` applies every pending mutation exactly once, in list order: the
resulting document-to-value map is the left fold of the claim's per-mutation
semantics (`SetValue` writes the operand's boolean coercion, `Add`/`Subtract`/
`Multiply`/`Divide` recompute from the current bit with 8-bit truncating arithmetic
and write the boolean coercion of the result, `ClearDoc` clears), and the
document-id space is untouched. -/
theorem onCommit_applies_mutations_in_order (c : Column) (changes : List Change) :
    (onCommit c changes).bv.getBit = changes.foldl mutateSpec c.bv.getBit
  ∧ (onCommit c changes).numDocs = c.numDocs
  ∧ (onCommit c changes).committedDocIdLimit = c.committedDocIdLimit := by
  induction changes generalizing c with
  | nil => exact ⟨rfl, rfl, rfl⟩
  | cons ch rest ih =>
    have hstep := applyChange_getBit c ch
    have hnum := applyChange_numDocs c ch
    have hrec := ih (applyChange c ch)
    refine ⟨?_, ?_, ?_⟩
    · show (onCommit (applyChange c ch) rest).bv.getBit
          = rest.foldl mutateSpec (mutateSpec c.bv.getBit ch)
      rw [hrec.1, hstep]
    · show (onCommit (applyChange c ch) rest).numDocs = c.numDocs
      rw [hrec.2.1, hnum.1]
    · show (onCommit (applyChange c ch) rest).committedDocIdLimit
          = c.committedDocIdLimit
      rw [hrec.2.2, hnum.2]

/-- C7: with `lidLow ≤ lidLimit ≤ numDocs`, `clearDocs` clears exactly the documents
of `[lidLow, lidLimit)` (documents outside the range, and documents inside it that
were already clear, keep their prior value); violating the precondition is the
fatal assertion failure, modelled as `none`. -/
theorem clearDocs_clears_exactly_range (c : Column) (lidLow lidLimit : Nat) :
    (lidLow ≤ lidLimit → lidLimit ≤ c.numDocs →
       ∃ c2, clearDocs c lidLow lidLimit = some c2
         ∧ ∀ d, c2.bv.getBit d =
             if lidLow ≤ d ∧ d < lidLimit then false else c.bv.getBit d)
  ∧ (¬ (lidLow ≤ lidLimit ∧ lidLimit ≤ c.numDocs) →
       clearDocs c lidLow lidLimit = none) := by
  constructor
  · intro h1 h2
    refine ⟨clearDocsLoop (lidLimit - lidLow) c lidLow, ?_, ?_⟩
    · rw [clearDocs, if_pos ⟨h1, h2⟩]
    · intro d
      rw [clearDocsLoop_getBit]
      exact if_congr (by omega) rfl rfl
  · intro h
    rw [clearDocs, if_neg h]

/-- Witness for C7: clearing `[1, 2)` of an all-true three-document column clears
document 1 only. -/
theorem clearDocs_clears_exactly_range_witness :
    (1 ≤ 2 ∧ 2 ≤ (⟨⟨fun _ => true, 3⟩, 3, 3, 3⟩ : Column).numDocs)
  ∧ ∃ c2, clearDocs ⟨⟨fun _ => true, 3⟩, 3, 3, 3⟩ 1 2 = some c2
      ∧ ∀ d, c2.bv.getBit d =
          if 1 ≤ d ∧ d < 2 then false
          else (⟨⟨fun _ => true, 3⟩, 3, 3, 3⟩ : Column).bv.getBit d :=
  ⟨⟨by decide, by decide⟩,
   (clearDocs_clears_exactly_range ⟨⟨fun _ => true, 3⟩, 3, 3, 3⟩ 1 2).1
     (by decide) (by decide)⟩


theorem clearCondition_excludes_setCondition (t : String) :
    (t = "0" ∨ strCaseEq "false" t = true) →
      (t == "1" || strCaseEq "true" t) = false := by
  intro h
  rcases h with h | h
  · subst h; decide
  · have ht : List.map asciiLower "false".data = List.map asciiLower t.data := by
      simpa [strCaseEq] using h
    have h1 : (t == "1") = false := by
      apply beq_eq_false_iff_ne.mpr
      intro ht1
      subst ht1
      revert ht
      decide
    have h2 : strCaseEq "true" t = false := by
      unfold strCaseEq
      apply beq_eq_false_iff_ne.mpr
      intro h2a
      rw [← h2a] at ht
      revert ht
      decide
    simp [h1, h2]

/-- C2: for a term whose external validity flag is `true`: text `"1"` or text
case-insensitively equal to `"true"` yields `MatchSetBits`; text `"0"` or text
case-insensitively equal to `"false"` yields `MatchClearedBits`; any other text
yields `Invalid`, for which `approximateHits` is `0` and the created iterator
matches nothing. -/
theorem term_parsing_matrix (t : String) (c : Column) :
    ((t = "1" ∨ strCaseEq "true" t = true) →
        (mkSearchContext ⟨t, true⟩ c).predicate = .MatchSetBits)
  ∧ ((t = "0" ∨ strCaseEq "false" t = true) →
        (mkSearchContext ⟨t, true⟩ c).predicate = .MatchClearedBits)
  ∧ (¬ (t = "1" ∨ strCaseEq "true" t = true) →
     ¬ (t = "0" ∨ strCaseEq "false" t = true) →
        (mkSearchContext ⟨t, true⟩ c).predicate = .Invalid
      ∧ (mkSearchContext ⟨t, true⟩ c).approximateHits = 0
      ∧ ∀ d, (createFilterIterator (mkSearchContext ⟨t, true⟩ c)).matchesDoc d
          = false) := by
  refine ⟨?_, ?_, ?_⟩
  · intro h
    have hb : (t == "1" || strCaseEq "true" t) = true := by
      rcases h with h | h
      · subst h; decide
      · simp [h]
    simp [mkSearchContext, hb, SearchContext.predicate]
  · intro h
    have hb1 : (t == "1" || strCaseEq "true" t) = false :=
      clearCondition_excludes_setCondition t h
    have hb2 : (t == "0" || strCaseEq "false" t) = true := by
      rcases h with h | h
      · subst h; decide
      · simp [h]
    simp [mkSearchContext, hb1, hb2, SearchContext.predicate]
  · intro h1 h2
    push_neg at h1 h2
    have hb1 : (t == "1" || strCaseEq "true" t) = false := by
      rcases h1 with ⟨h1a, h1b⟩
      simp [beq_eq_false_iff_ne.mpr h1a, Bool.eq_false_iff.mpr h1b]
    have hb2 : (t == "0" || strCaseEq "false" t) = false := by
      rcases h2 with ⟨h2a, h2b⟩
      simp [beq_eq_false_iff_ne.mpr h2a, Bool.eq_false_iff.mpr h2b]
    simp [mkSearchContext, hb1, hb2, SearchContext.predicate,
      SearchContext.approximateHits, createFilterIterator, SIterator.matchesDoc]

/-- Witness for C2: the term `"True"` (validity flag `true`) resolves to
`MatchSetBits`. -/
theorem term_parsing_matrix_witness :
    ("True" = "1" ∨ strCaseEq "true" "True" = true)
  ∧ (mkSearchContext ⟨"True", true⟩ freshColumn).predicate = .MatchSetBits :=
  ⟨by decide, (term_parsing_matrix "True" freshColumn).1 (by decide)⟩


theorem testBit_toNat_add_two_mul (b : Bool) (m : Nat) :
    Nat.testBit (b.toNat + 2 * m) 0 = b := by
  cases b <;> simp [Nat.testBit_zero]

theorem testBit_toNat_zero (b : Bool) : Nat.testBit b.toNat 0 = b := by
  cases b <;> decide

theorem testBit_succ_toNat (b : Bool) (m k : Nat) :
    Nat.testBit (b.toNat + 2 * m) (k + 1) = Nat.testBit m k := by
  rw [Nat.testBit_add_one]
  congr 1
  cases b
  · show (0 + 2 * m) / 2 = m
    omega
  · show (1 + 2 * m) / 2 = m
    omega

theorem decide_toNat_mod_two (b : Bool) : decide (b.toNat % 2 = 1) = b := by
  cases b <;> decide

theorem testBit_packByte (bits : Nat → Bool) (j k : Nat) (hk : k < 8) :
    Nat.testBit (packByte bits j) k = bits (8 * j + k) := by
  unfold packByte
  interval_cases k <;>
    simp [testBit_succ_toNat, testBit_toNat_add_two_mul, testBit_toNat_zero,
      decide_toNat_mod_two]

theorem readU32_u32leBytes (n : Nat) (rest : List Nat) (h : n < 4294967296) :
    readU32 (u32leBytes n ++ rest) = n := by
  simp [readU32, u32leBytes, List.getD]
  omega

theorem getD_bvBytes (bv : BitVector) (j : Nat) (hj : j < bv.sizeBytes) :
    (bvBytes bv).getD j 0 = packByte bv.bits j := by
  rw [bvBytes, List.getD_eq_getD_get?, List.get?_map, List.get?_range hj]
  rfl

/-- Counterexample to C6 as stated: after eight `addDoc` calls with nothing yet
committed, the saved stream's payload is `ceil(numDocs / 8) = 1` byte, not
`ceil(documentCount / 8) = ceil(committedDocIdLimit / 8) = 0` bytes. -/
theorem onSave_payload_length_counterexample :
    ((onSave (addN 8 freshColumn)).drop 4).length ≠
      ((addN 8 freshColumn).committedDocIdLimit + 7) / 8 := by decide

/-- C6 (amended): the saved stream is a `u32` equal to `committedDocIdLimit` at
offset 0, followed at offset 4 by exactly `ceil(numDocs / 8)` packed-bit bytes —
which equals `ceil(documentCount / 8)` whenever the column is saved in a committed
state (`committedDocIdLimit = numDocs`) — in which bit `i` holds the value of
document `i`. -/
theorem onSave_layout (c : Column) (hsz : c.bv.size = c.numDocs)
    (h32 : c.committedDocIdLimit < 4294967296) :
    readU32 (onSave c) = c.committedDocIdLimit
  ∧ ((onSave c).drop 4).length = (c.numDocs + 7) / 8
  ∧ ∀ i, i < c.numDocs →
      Nat.testBit (((onSave c).drop 4).getD (i / 8) 0) (i % 8) = c.bv.getBit i := by
  have hdrop : (onSave c).drop 4 = bvBytes c.bv := rfl
  refine ⟨readU32_u32leBytes _ _ h32, ?_, ?_⟩
  · rw [hdrop]
    simp [bvBytes, BitVector.sizeBytes, hsz]
  · intro i hi
    rw [hdrop, getD_bvBytes _ _ (by rw [BitVector.sizeBytes, hsz]; omega),
      testBit_packByte _ _ _ (Nat.mod_lt _ (by omega))]
    rw [BitVector.getBit]
    congr 1
    omega

/-- Witness for the amended C6 at the ten-document sample column. -/
theorem onSave_layout_witness :
    (sampleColumn.bv.size = sampleColumn.numDocs
      ∧ sampleColumn.committedDocIdLimit < 4294967296)
  ∧ readU32 (onSave sampleColumn) = sampleColumn.committedDocIdLimit :=
  ⟨⟨rfl, by decide⟩, (onSave_layout sampleColumn rfl (by decide)).1⟩

/-- C3: saving a committed column and loading the bytes into a fresh column
succeeds and reproduces the boolean value of every document. -/
theorem save_load_round_trip (c : Column) (hsz : c.bv.size = c.numDocs)
    (hcom : c.committedDocIdLimit = c.numDocs) (h32 : c.numDocs < 4294967296)
    (d : Nat) (hd : d < c.numDocs) :
    (onLoad freshColumn (some (onSave c))).1 = true
  ∧ ((onLoad freshColumn (some (onSave c))).2).bv.getBit d = c.bv.getBit d := by
  refine ⟨rfl, ?_⟩
  have hread : readU32 (onSave c) = c.committedDocIdLimit :=
    readU32_u32leBytes _ _ (by omega)
  simp only [onLoad, BitVector.getBit]
  rw [hread, hcom]
  have hsb : ((freshColumn.bv.clear).extend c.numDocs).sizeBytes
      = (bvBytes c.bv).length := by
    simp [freshColumn, BitVector.clear, BitVector.extend, BitVector.sizeBytes,
      bvBytes, hsz]
  rw [hsb]
  have hdrop : (onSave c).drop 4 = bvBytes c.bv := rfl
  rw [hdrop, List.take_length]
  rw [getD_bvBytes _ _ (by rw [BitVector.sizeBytes, hsz]; omega),
    testBit_packByte _ _ _ (Nat.mod_lt _ (by omega))]
  congr 1
  omega

/-- Witness for C3: the sample column round-trips the value of document 3. -/
theorem save_load_round_trip_witness :
    (sampleColumn.bv.size = sampleColumn.numDocs
      ∧ sampleColumn.committedDocIdLimit = sampleColumn.numDocs
      ∧ sampleColumn.numDocs < 4294967296 ∧ 3 < sampleColumn.numDocs)
  ∧ ((onLoad freshColumn (some (onSave sampleColumn))).2).bv.getBit 3
      = sampleColumn.bv.getBit 3 :=
  ⟨⟨rfl, rfl, by decide, by decide⟩,
   (save_load_round_trip sampleColumn rfl rfl (by decide) 3 (by decide)).2⟩

end SingleBool
